import Mathlib

/-!
Shallow embedding of `src/index.py` (prospecta): bulk ingestion pipeline for
company registry records.  Pure/stateful Python code is translated into
executable Lean definitions; the filesystem and network are explicit state.

Strings are modelled as `List Char` (`Chars`); the inputs exercised by the
claims are ASCII, so `Char.toUpper`/`Char.toLower` agree with Python's
`str.upper`/`str.lower` on them.
-/

set_option autoImplicit false

namespace Prospecta

abbrev Chars := List Char

/-- Python `str.strip` whitespace set (ASCII part: space, \t, \n, \r, \v, \f). -/
def isSpaceC (c : Char) : Bool :=
  c == ' ' || c == '\t' || c == '\n' || c == '\r' ||
  c == Char.ofNat 11 || c == Char.ofNat 12

/-- Python `s.strip()`: drop whitespace from both ends. -/
def stripC (l : Chars) : Chars :=
  ((l.dropWhile isSpaceC).reverse.dropWhile isSpaceC).reverse

/-- The per-column cleanup in `process_empresas_file`:
`chunk[col].str.strip().str.replace('"', '')`. -/
def cleanField (l : Chars) : Chars :=
  (stripC l).filter (fun c => c != '"')

def isDigitC (c : Char) : Bool := c.isDigit

def digitVal (c : Char) : Nat := c.toNat - 48

def digitsToNat (l : Chars) : Nat :=
  l.foldl (fun n c => n * 10 + digitVal c) 0

/-- Python's `str.replace(',', '.')` used on `capital_social`. -/
def replaceCommaDot (l : Chars) : Chars :=
  l.map (fun c => if c = ',' then '.' else c)

/-- The decimal sublanguage of Python's `float` constructor actually reachable
from this dataset's values: optional sign, integer digits, optional fractional
part, at least one digit, nothing else.  Exact rational value (the claim inputs
are all exactly representable, so `Rat` is faithful where it matters). -/
def parseUnsignedFloat (l : Chars) : Option Rat :=
  let intPart := l.takeWhile isDigitC
  let rest := l.dropWhile isDigitC
  match rest with
  | [] => if intPart = [] then none else some (digitsToNat intPart : Rat)
  | '.' :: frac =>
      if frac.all isDigitC ∧ (intPart ≠ [] ∨ frac ≠ []) then
        some ((digitsToNat intPart : Rat) + (digitsToNat frac : Rat) / (10 ^ frac.length))
      else none
  | _ => none

def pythonFloat (l : Chars) : Option Rat :=
  match l with
  | '-' :: r => (parseUnsignedFloat r).map (fun q => -q)
  | '+' :: r => parseUnsignedFloat r
  | _ => parseUnsignedFloat l

/-- `float(row['capital_social'].replace(',', '.')) if row['capital_social'] not in
[None, ''] else None`, with any parse failure caught and turned into `None`. -/
def coerceCapital (l : Chars) : Option Rat :=
  if l = [] then none else pythonFloat (replaceCommaDot l)

structure PDate where
  year : Nat
  month : Nat
  day : Nat
deriving DecidableEq, Repr

/-- Candidates for `%d` of `strptime` (regex `(3[01]|[12]\d|0[1-9]|[1-9])`):
two-digit reading first, then one-digit, as the regex backtracks. -/
def dayCands (l : Chars) : List (Nat × Chars) :=
  (match l with
   | a :: b :: r =>
       if isDigitC a ∧ isDigitC b ∧ 1 ≤ digitVal a * 10 + digitVal b ∧
          digitVal a * 10 + digitVal b ≤ 31 then
         [(digitVal a * 10 + digitVal b, r)]
       else []
   | _ => []) ++
  (match l with
   | a :: r => if isDigitC a ∧ 1 ≤ digitVal a then [(digitVal a, r)] else []
   | _ => [])

/-- Candidates for `%m` of `strptime` (regex `(1[0-2]|0[1-9]|[1-9])`). -/
def monthCands (l : Chars) : List (Nat × Chars) :=
  (match l with
   | a :: b :: r =>
       if isDigitC a ∧ isDigitC b ∧ 1 ≤ digitVal a * 10 + digitVal b ∧
          digitVal a * 10 + digitVal b ≤ 12 then
         [(digitVal a * 10 + digitVal b, r)]
       else []
   | _ => []) ++
  (match l with
   | a :: r => if isDigitC a ∧ 1 ≤ digitVal a then [(digitVal a, r)] else []
   | _ => [])

/-- `%Y`: exactly four digits, which must end the string
(`strptime` rejects unconverted trailing data). -/
def yearEnd (l : Chars) : Option Nat :=
  match l with
  | [a, b, c, d] =>
      if isDigitC a ∧ isDigitC b ∧ isDigitC c ∧ isDigitC d then
        some (digitsToNat [a, b, c, d])
      else none
  | _ => none

/-- `datetime.strptime(s, '%d/%m/%Y')` pattern match, before calendar
validation. -/
def parseDMY (l : Chars) : Option PDate :=
  (dayCands l).findSome? fun dc =>
    match dc.2 with
    | '/' :: r2 =>
        (monthCands r2).findSome? fun mc =>
          match mc.2 with
          | '/' :: r3 =>
              match yearEnd r3 with
              | some y => some ⟨y, mc.1, dc.1⟩
              | none => none
          | _ => none
    | _ => none

def isLeap (y : Nat) : Bool :=
  y % 4 = 0 ∧ (y % 100 ≠ 0 ∨ y % 400 = 0)

def daysInMonth (y m : Nat) : Nat :=
  if m = 2 then (if isLeap y then 29 else 28)
  else if m = 4 ∨ m = 6 ∨ m = 9 ∨ m = 11 then 30
  else 31

/-- `datetime.strptime(row['data_abertura'], '%d/%m/%Y').date()` guarded by
`row['data_abertura'] not in [None, '']`, any failure caught into `None`.
Calendar validation (`datetime` constructor) follows the regex match. -/
def coerceDate (l : Chars) : Option PDate :=
  if l = [] then none
  else
    match parseDMY l with
    | some p =>
        if 1 ≤ p.year ∧ p.day ≤ daysInMonth p.year p.month then some p else none
    | none => none

/-- One raw CSV row of the Empresas file, as read with
`names=['cnpj','nome_empresarial','col2','col3','capital_social','uf','data_abertura']`. -/
structure RawRow where
  cnpj : Chars
  nome_empresarial : Chars
  col2 : Chars
  col3 : Chars
  capital_social : Chars
  uf : Chars
  data_abertura : Chars
deriving DecidableEq, Repr

/-- The per-chunk column cleanup (strip + remove residual quotes) applied to the
five columns the code touches. -/
def cleanRow (r : RawRow) : RawRow :=
  { r with
    cnpj := cleanField r.cnpj
    nome_empresarial := cleanField r.nome_empresarial
    capital_social := cleanField r.capital_social
    uf := cleanField r.uf
    data_abertura := cleanField r.data_abertura }

/-- The `Empresa` ORM row restricted to the columns `process_empresas_file`
populates (the others are always `None` there). -/
structure Empresa where
  cnpj : Chars
  nome_empresarial : Chars
  nome_fantasia : Option Chars
  capital_social : Option Rat
  uf : Chars
  data_abertura : Option PDate
deriving DecidableEq, Repr

/-- Construction of the `Empresa(...)` object from one cleaned row. -/
def rowToEmpresa (r : RawRow) : Empresa :=
  { cnpj := r.cnpj
    nome_empresarial := r.nome_empresarial
    nome_fantasia := none
    capital_social := coerceCapital r.capital_social
    uf := r.uf
    data_abertura := coerceDate r.data_abertura }

/-- `session.merge(empresa)`: merge by primary key `cnpj` — replace the row if
the key exists, append otherwise. -/
def upsert (e : Empresa) (s : List Empresa) : List Empresa :=
  if ∃ x ∈ s, x.cnpj = e.cnpj then
    s.map (fun x => if x.cnpj = e.cnpj then e else x)
  else s ++ [e]

/-- The records one chunk produces: exactly one per raw row, never dropped. -/
def chunkRecords (rows : List RawRow) : List Empresa :=
  rows.map (fun r => rowToEmpresa (cleanRow r))

/-- Merging one chunk's records into the store (the inner `for _, row in
chunk.iterrows()` loop). -/
def loadChunk (rows : List RawRow) (s : List Empresa) : List Empresa :=
  (chunkRecords rows).foldl (fun st e => upsert e st) s

/-- `pd.read_csv(..., chunksize=k)`: split the row stream into chunks of `k`,
fuel-indexed for structural recursion. -/
def chunkListF {α : Type} (k : Nat) : Nat → List α → List (List α)
  | 0, _ => []
  | _, [] => []
  | fuel + 1, l => l.take k :: chunkListF k fuel (l.drop k)

def chunkList {α : Type} (k : Nat) (l : List α) : List (List α) :=
  chunkListF k l.length l

def chunk_size : Nat := 100000

/-- `process_empresas_file`: stream the file in chunks of 100000 rows, merge
each record, `session.commit()` once per chunk.  Returns the final store and
the number of commits issued. -/
def process_empresas_file (rows : List RawRow) (store : List Empresa) :
    List Empresa × Nat :=
  let chunks := chunkList chunk_size rows
  (chunks.foldl (fun s c => loadChunk c s) store, chunks.length)

/-! ## Remote catalog scanner (`get_file_list`) -/

/-- `startsWithC p l`: `l` begins with `p` (used to build substring search). -/
def startsWithC : Chars → Chars → Bool
  | [], _ => true
  | _ :: _, [] => false
  | a :: as, b :: bs => a == b && startsWithC as bs

/-- Python's `needle in hay` substring test. -/
def hasSubC (needle : Chars) : Chars → Bool
  | [] => needle.isEmpty
  | c :: t => startsWithC needle (c :: t) || hasSubC needle t

/-- Python's `s.endswith(suf)`. -/
def endsWithC (suf l : Chars) : Bool :=
  startsWithC suf.reverse l.reverse

def toUpperC (l : Chars) : Chars := l.map Char.toUpper
def toLowerC (l : Chars) : Chars := l.map Char.toLower

/-- One step of capturing `([^"]+)"` after a literal `href="`. -/
def captureHref (l : Chars) : Option (Chars × Chars) :=
  let cap := l.takeWhile (fun c => c != '"')
  let rest := l.dropWhile (fun c => c != '"')
  match rest with
  | '"' :: r2 => if cap = [] then none else some (cap, r2)
  | _ => none

/-- `re.findall(r'href="([^\x22]+)"', html)`: left-to-right, non-overlapping;
on a failed capture the scan advances one position.  Fuel-indexed (fuel =
remaining length suffices since every step consumes at least one char). -/
def scanHrefsF : Nat → Chars → List Chars
  | 0, _ => []
  | _, [] => []
  | fuel + 1, l =>
      match l with
      | 'h' :: 'r' :: 'e' :: 'f' :: '=' :: '"' :: rest =>
          match captureHref rest with
          | some (cap, r2) => cap :: scanHrefsF fuel r2
          | none => scanHrefsF fuel l.tail
      | _ :: t => scanHrefsF fuel t
      | [] => []

def scanHrefs (l : Chars) : List Chars := scanHrefsF l.length l

def cnaeToken : Chars := "CNAECSV".data
def empresaToken : Chars := "EMPRECSV".data

/-- The pure classification core of `get_file_list` applied to a page's HTML:
extract hrefs, drop trailing-`/` targets, partition by case-insensitive
substring match. -/
def classifyFiles (html : Chars) : List Chars × List Chars :=
  let files := (scanHrefs html).filter (fun f => !(endsWithC ['/'] f))
  (files.filter (fun f => hasSubC cnaeToken (toUpperC f)),
   files.filter (fun f => hasSubC empresaToken (toUpperC f)))

/-! ## Retrying fetcher (`requests.Session` + urllib3 `Retry`) -/

def status_forcelist : List Nat := [502, 503, 504]

def allowed_methods : List Chars := ["GET".data]

def retry_total : Nat := 5

def backoff_factor : Nat := 1

/-- urllib3 `Retry.is_retry`: retried iff the method is allowed and the status
is in the forcelist. -/
def is_retry (method : Chars) (status : Nat) : Bool :=
  decide (method ∈ allowed_methods) && decide (status ∈ status_forcelist)

/-- urllib3 `Retry.get_backoff_time` (1.26.x): 0 before the second retry, then
`backoff_factor * 2^(n-1)` seconds capped at `BACKOFF_MAX = 120`. -/
def get_backoff_time (consecutive : Nat) : Nat :=
  if consecutive ≤ 1 then 0 else min (backoff_factor * 2 ^ (consecutive - 1)) 120

inductive FetchResult
  | gotStatus (s : Nat)
  | retriesExhausted
deriving DecidableEq, Repr

/-- The urllib3 retry loop: `made` requests already issued; each forcelist
status consumes one retry; when `total` drops below zero (i.e. a retryable
status arrives with no retries left) `MaxRetryError` is raised.  Returns the
number of requests issued and the outcome. -/
def retryGo (method : Chars) (statusAt : Nat → Nat) : Nat → Nat → Nat × FetchResult
  | made, 0 =>
      if is_retry method (statusAt made) then (made + 1, FetchResult.retriesExhausted)
      else (made + 1, FetchResult.gotStatus (statusAt made))
  | made, r + 1 =>
      if is_retry method (statusAt made) then retryGo method statusAt (made + 1) r
      else (made + 1, FetchResult.gotStatus (statusAt made))

/-- `session_req.get(url, timeout=timeout)` with the mounted
`Retry(total=5, backoff_factor=1, status_forcelist=[502,503,504],
allowed_methods=["GET"])` adapter: GET with 5 retries. -/
def session_get (statusAt : Nat → Nat) : Nat × FetchResult :=
  retryGo ("GET".data) statusAt 0 retry_total

/-! ## Filesystem / network world and the download-extract step -/

/-- Content of a file in the staging directory or of a response body.
`badFile` stands for content whose decode as the Empresas CSV raises
(the per-file fatal `DecodeError`). -/
inductive FileContent
  | zipFile (members : List (Chars × List RawRow))
  | textFile (rows : List RawRow)
  | htmlFile (html : Chars)
  | badFile
deriving DecidableEq, Repr

/-- Response schedule of one URL: HTTP status of the i-th request, and the body
delivered on a success. -/
structure NetResp where
  statusAt : Nat → Nat
  body : FileContent

/-- World state: staging directory contents (keyed by filename) and the
network. -/
structure OrchWorld where
  fs : List (Chars × FileContent)
  net : Chars → NetResp

inductive DlErr
  | retriesExhausted
  | httpError (s : Nat)
deriving DecidableEq, Repr

structure DlOut where
  result : Except DlErr (Chars × Bool)
  world : OrchWorld
  netCalls : Nat

/-- `download_and_extract_file(url, dest_dir, filename)`: if
`dest_dir/filename` exists return `(dest_path, True)` with no network call;
otherwise GET with retries, `raise_for_status`, write the body, then
best-effort ZIP extraction of all members into the staging dir; the returned
boolean is the extraction outcome.  Paths are modelled by the filename (one
fixed staging dir). -/
def download_and_extract_file (w : OrchWorld) (url filename : Chars) : DlOut :=
  match List.lookup filename w.fs with
  | some _ => ⟨.ok (filename, true), w, 0⟩
  | none =>
      let resp := w.net url
      match session_get resp.statusAt with
      | (n, .retriesExhausted) => ⟨.error .retriesExhausted, w, n⟩
      | (n, .gotStatus s) =>
          if 400 ≤ s then ⟨.error (.httpError s), w, n⟩
          else
            let fs1 := w.fs ++ [(filename, resp.body)]
            match resp.body with
            | .zipFile members =>
                ⟨.ok (filename, true),
                 ⟨fs1 ++ members.map (fun m => (m.1, .textFile m.2)), w.net⟩, n⟩
            | _ => ⟨.ok (filename, false), ⟨fs1, w.net⟩, n⟩

inductive DiscErr
  | requestFailed (s : Nat)
deriving DecidableEq, Repr

/-- `get_file_list(base_url)`: one plain `requests.get` (no retry adapter),
`raise_for_status`, then href extraction and classification.  Returns the
outcome and the number of network calls (always exactly 1). -/
def get_file_list (w : OrchWorld) (base_url : Chars) :
    Except DiscErr (List Chars × List Chars) × Nat :=
  let s := (w.net base_url).statusAt 0
  if 400 ≤ s then (.error (.requestFailed s), 1)
  else
    let html := match (w.net base_url).body with
      | .htmlFile h => h
      | _ => []
    (.ok (classifyFiles html), 1)

/-! ## Orchestrator (`update_database`) -/

/-- `file_name[:-4]` when `file_name.lower().endswith('.zip')`, else peek the
downloaded file as a ZIP and take the first member name; on any failure
(not an archive, empty member list) fall back to `file_name`. -/
def derive_csv_filename (w : OrchWorld) (file_name local_path : Chars) : Chars :=
  if endsWithC (".zip".data) (toLowerC file_name) then
    file_name.take (file_name.length - 4)
  else
    match List.lookup local_path w.fs with
    | some (.zipFile (m :: _)) => m.1
    | _ => file_name

/-- Decoding a staged file as the Empresas CSV: text content yields its rows,
anything else raises (modelled as an error caught by the orchestrator). -/
def decodeFile : FileContent → Except Unit (List RawRow)
  | .textFile rows => .ok rows
  | _ => .error ()

inductive FileOutcome
  | downloadFailed
  | csvMissing (csvName : Chars)
  | processed
  | processFailed
deriving DecidableEq, Repr

/-- The download call the orchestrator loops make:
`download_and_extract_file(base_url + file_name, temp_dir, file_name)`. -/
def dlStep (w : OrchWorld) (base_url file_name : Chars) : DlOut :=
  download_and_extract_file w (base_url ++ file_name) file_name

/-- The body of the per-Empresas-file loop in `update_database`: download
(errors caught → skip), derive the CSV name, process it if present (decode
errors caught), else log it missing.  Returns the new world, store, the
outcome, and the network calls made. -/
def handleEmpresaFile (base_url : Chars) (w : OrchWorld) (store : List Empresa)
    (file_name : Chars) : OrchWorld × List Empresa × FileOutcome × Nat :=
  let dl := dlStep w base_url file_name
  match dl.result with
  | .error _ => (dl.world, store, .downloadFailed, dl.netCalls)
  | .ok (local_path, _extracted) =>
      let csv := derive_csv_filename dl.world file_name local_path
      match List.lookup csv dl.world.fs with
      | some content =>
          match decodeFile content with
          | .ok rows => (dl.world, (process_empresas_file rows store).1, .processed, dl.netCalls)
          | .error _ => (dl.world, store, .processFailed, dl.netCalls)
      | none => (dl.world, store, .csvMissing csv, dl.netCalls)

/-- The per-Empresas-file loop: every failure is caught and the loop continues
with the next file; outcomes are recorded in order. -/
def handleEmpresaFiles (base_url : Chars) (w : OrchWorld) (store : List Empresa) :
    List Chars → OrchWorld × List Empresa × List (Chars × FileOutcome)
  | [] => (w, store, [])
  | f :: rest =>
      let step := handleEmpresaFile base_url w store f
      let next := handleEmpresaFiles base_url step.1 step.2.1 rest
      (next.1, next.2.1, (f, step.2.2.1) :: next.2.2)

/-- The CNAE loop: download-and-extract each file, errors swallowed. -/
def handleCnaeFiles (base_url : Chars) : OrchWorld → List Chars → OrchWorld
  | w, [] => w
  | w, f :: rest =>
      handleCnaeFiles base_url (download_and_extract_file w (base_url ++ f) f).world rest

inductive RunResult
  | abortedDiscovery
  | completed (outcomes : List (Chars × FileOutcome))
deriving DecidableEq, Repr

/-- `update_database()`: discovery (fatal on failure: log, close session,
return), then the CNAE download loop, then the Empresas process loop. -/
def update_database (w : OrchWorld) (base_url : Chars) (store0 : List Empresa) :
    RunResult × OrchWorld × List Empresa :=
  match (get_file_list w base_url).1 with
  | .error _ => (.abortedDiscovery, w, store0)
  | .ok (cnae_files, empresa_files) =>
      let w1 := handleCnaeFiles base_url w cnae_files
      let res := handleEmpresaFiles base_url w1 store0 empresa_files
      (.completed res.2.2, res.1, res.2.1)

/-! ## Store lemmas -/

theorem upsert_idem (e : Empresa) (s : List Empresa) :
    upsert e (upsert e s) = upsert e s := by
  unfold upsert
  by_cases h : ∃ x ∈ s, x.cnpj = e.cnpj
  · rw [if_pos h]
    have h2 : ∃ x ∈ s.map (fun x => if x.cnpj = e.cnpj then e else x), x.cnpj = e.cnpj := by
      obtain ⟨x, hx, hk⟩ := h
      exact ⟨e, List.mem_map.2 ⟨x, hx, by rw [if_pos hk]⟩, rfl⟩
    rw [if_pos h2, List.map_map]
    refine List.map_congr_left ?_
    intro a _
    by_cases hk : a.cnpj = e.cnpj <;> simp [Function.comp, hk]
  · rw [if_neg h]
    have h2 : ∃ x ∈ s ++ [e], x.cnpj = e.cnpj := ⟨e, by simp, rfl⟩
    rw [if_pos h2, List.map_append]
    have hs : s.map (fun x => if x.cnpj = e.cnpj then e else x) = s := by
      refine (List.map_congr_left ?_).trans (List.map_id s)
      intro a ha
      exact if_neg (fun hk => h ⟨a, ha, hk⟩)
    simp [hs]

theorem upsert_key_val (e : Empresa) (s : List Empresa) (x : Empresa)
    (hx : x ∈ upsert e s) (hk : x.cnpj = e.cnpj) : x = e := by
  unfold upsert at hx
  by_cases h : ∃ y ∈ s, y.cnpj = e.cnpj
  · rw [if_pos h] at hx
    obtain ⟨y, hy, hfy⟩ := List.mem_map.1 hx
    by_cases hyk : y.cnpj = e.cnpj
    · rw [if_pos hyk] at hfy; exact hfy.symm
    · rw [if_neg hyk] at hfy; subst hfy; exact absurd hk hyk
  · rw [if_neg h] at hx
    rcases List.mem_append.1 hx with hxs | hxe
    · exact absurd ⟨x, hxs, hk⟩ h
    · simpa using hxe

/-- Key list of the store. -/
def storeKeys (s : List Empresa) : List Chars := s.map (fun x => x.cnpj)

/-- Key of one raw row after cleanup. -/
def rowKey (r : RawRow) : Chars := cleanField r.cnpj

theorem storeKeys_upsert (e : Empresa) (s : List Empresa) :
    storeKeys (upsert e s) =
      if e.cnpj ∈ storeKeys s then storeKeys s else storeKeys s ++ [e.cnpj] := by
  unfold upsert storeKeys
  by_cases h : ∃ x ∈ s, x.cnpj = e.cnpj
  · rw [if_pos h, if_pos, List.map_map]
    · refine List.map_congr_left ?_
      intro a _
      by_cases hk : a.cnpj = e.cnpj <;> simp [Function.comp, hk]
    · obtain ⟨x, hx, hk⟩ := h
      exact List.mem_map.2 ⟨x, hx, hk⟩
  · rw [if_neg h, if_neg]
    · simp
    · intro hmem
      obtain ⟨x, hx, hk⟩ := List.mem_map.1 hmem
      exact h ⟨x, hx, hk⟩

theorem storeKeys_upsert_nodup (e : Empresa) (s : List Empresa)
    (h : (storeKeys s).Nodup) : (storeKeys (upsert e s)).Nodup := by
  rw [storeKeys_upsert]
  by_cases hm : e.cnpj ∈ storeKeys s
  · rwa [if_pos hm]
  · rw [if_neg hm]
    simp only [List.nodup_append]
    refine ⟨h, List.nodup_singleton _, ?_⟩
    intro a ha hb
    rw [List.mem_singleton] at hb
    exact hm (hb ▸ ha)

theorem storeKeys_upsert_toFinset (e : Empresa) (s : List Empresa) :
    (storeKeys (upsert e s)).toFinset = insert e.cnpj (storeKeys s).toFinset := by
  rw [storeKeys_upsert]
  by_cases hm : e.cnpj ∈ storeKeys s
  · rw [if_pos hm, Finset.insert_eq_self.2 (List.mem_toFinset.2 hm)]
  · rw [if_neg hm, List.toFinset_append]
    simp only [List.toFinset_cons, List.toFinset_nil, insert_emptyc_eq]
    rw [Finset.union_comm, ← Finset.insert_eq]

/-- The flat record-merging loop over a list of raw rows. -/
def loadRows (rows : List RawRow) (s : List Empresa) : List Empresa :=
  rows.foldl (fun st r => upsert (rowToEmpresa (cleanRow r)) st) s

theorem loadChunk_eq_loadRows (rows : List RawRow) (s : List Empresa) :
    loadChunk rows s = loadRows rows s := by
  simp [loadChunk, chunkRecords, loadRows, List.foldl_map]

theorem loadRows_append (a b : List RawRow) (s : List Empresa) :
    loadRows (a ++ b) s = loadRows b (loadRows a s) := by
  simp [loadRows, List.foldl_append]

theorem loadRows_nodup (rows : List RawRow) :
    ∀ s : List Empresa, (storeKeys s).Nodup → (storeKeys (loadRows rows s)).Nodup := by
  induction rows with
  | nil => intro s h; exact h
  | cons r rest ih =>
      intro s h
      exact ih _ (storeKeys_upsert_nodup _ _ h)

theorem loadRows_keys_toFinset (rows : List RawRow) :
    ∀ s : List Empresa,
      (storeKeys (loadRows rows s)).toFinset =
        (storeKeys s).toFinset ∪ (rows.map rowKey).toFinset := by
  induction rows with
  | nil => intro s; simp [loadRows]
  | cons r rest ih =>
      intro s
      have hstep : loadRows (r :: rest) s = loadRows rest (upsert (rowToEmpresa (cleanRow r)) s) := rfl
      rw [hstep, ih, storeKeys_upsert_toFinset]
      have hkey : (rowToEmpresa (cleanRow r)).cnpj = rowKey r := rfl
      simp [hkey, Finset.insert_union, Finset.union_insert]

theorem loadRows_length_distinct (rows : List RawRow) :
    (loadRows rows []).length = ((rows.map rowKey).toFinset).card := by
  have h1 : (storeKeys (loadRows rows [])).Nodup := loadRows_nodup rows [] (by simp [storeKeys])
  have h2 := loadRows_keys_toFinset rows []
  have h3 : (loadRows rows []).length = (storeKeys (loadRows rows [])).length := by
    simp [storeKeys]
  rw [h3, ← List.toFinset_card_of_nodup h1, h2]
  simp [storeKeys]

/-! ## Chunking lemmas -/

theorem chunkListF_congr {α : Type} (k : Nat) (hk : 0 < k) :
    ∀ (f1 f2 : Nat) (l : List α), l.length ≤ f1 → l.length ≤ f2 →
      chunkListF k f1 l = chunkListF k f2 l := by
  intro f1
  induction f1 with
  | zero =>
      intro f2 l h1 _
      have : l = [] := List.length_eq_zero.1 (Nat.le_zero.1 h1)
      subst this
      cases f2 <;> rfl
  | succ n ih =>
      intro f2 l h1 h2
      cases l with
      | nil => cases f2 <;> rfl
      | cons a t =>
          cases f2 with
          | zero => simp at h2
          | succ m =>
              show (a :: t).take k :: chunkListF k n ((a :: t).drop k) =
                (a :: t).take k :: chunkListF k m ((a :: t).drop k)
              congr 1
              have hd : ((a :: t).drop k).length = t.length + 1 - k := by
                simp [List.length_drop]
              simp only [List.length_cons] at h1 h2
              refine ih m _ ?_ ?_ <;> rw [hd] <;> omega

theorem chunkList_cons {α : Type} (k : Nat) (hk : 0 < k) (l : List α) (hl : l ≠ []) :
    chunkList k l = l.take k :: chunkList k (l.drop k) := by
  cases l with
  | nil => exact absurd rfl hl
  | cons a t =>
      show chunkListF k (t.length + 1) (a :: t) = _
      show (a :: t).take k :: chunkListF k t.length ((a :: t).drop k) =
        (a :: t).take k :: chunkListF k ((a :: t).drop k).length ((a :: t).drop k)
      congr 1
      have hd : ((a :: t).drop k).length = t.length + 1 - k := by
        simp [List.length_drop]
      refine chunkListF_congr k hk _ _ _ (by rw [hd]; omega) (by rw [hd])

theorem chunks_loadRows (k : Nat) (hk : 0 < k) (l : List RawRow) (s : List Empresa) :
    (chunkList k l).foldl (fun st c => loadRows c st) s = loadRows l s := by
  by_cases hl : l = []
  · subst hl; rfl
  · rw [chunkList_cons k hk l hl]
    show (chunkList k (l.drop k)).foldl (fun st c => loadRows c st) (loadRows (l.take k) s) = _
    rw [chunks_loadRows k hk (l.drop k) (loadRows (l.take k) s)]
    rw [← loadRows_append, List.take_append_drop]
termination_by l.length
decreasing_by
  have : 0 < l.length := List.length_pos.2 hl
  simp only [List.length_drop]
  omega

/-! ## Claim C1 -/

/-- A 3-row input file where rows 1 and 3 share the identifier `11111111` with
different field values. -/
def c1_rows : List RawRow :=
  [⟨"11111111".data, "EMPRESA A".data, [], [], [], "SP".data, "15/03/2020".data⟩,
   ⟨"22222222".data, "EMPRESA B".data, [], [], [], "RJ".data, "01/02/2021".data⟩,
   ⟨"11111111".data, "EMPRESA A NOVA".data, [], [], [], "MG".data, []⟩]

/-- The record the last occurrence of `11111111` produces: every field comes
from row 3 (in particular `data_abertura` is `none` again, not row 1's date). -/
def c1_lastRecord : Empresa :=
  ⟨"11111111".data, "EMPRESA A NOVA".data, none, none, "MG".data, none⟩

/-- C1: upsert is idempotent and fully replacing: a second upsert of an
identical record leaves the store unchanged; any record stored under a key
equals the last record upserted with that key (no stale optional fields); and
the 3-row file with a duplicated identifier ends with exactly 2 records, the
shared-identifier one holding the last occurrence's field values. -/
theorem c1_upsert_idempotent_fully_replacing :
    (∀ (e : Empresa) (s : List Empresa), upsert e (upsert e s) = upsert e s) ∧
    (∀ (e : Empresa) (s : List Empresa) (x : Empresa),
       x ∈ upsert e s → x.cnpj = e.cnpj → x = e) ∧
    (process_empresas_file c1_rows []).1.length = 2 ∧
    (process_empresas_file c1_rows []).1.filter
      (fun r => r.cnpj == "11111111".data) = [c1_lastRecord] :=
  ⟨upsert_idem, upsert_key_val, by decide, by decide⟩

/-- Witness for C1: the hypotheses of the replacement conjunct are satisfiable
at a concrete store. -/
theorem c1_witness :
    upsert c1_lastRecord (upsert c1_lastRecord []) = upsert c1_lastRecord [] ∧
    c1_lastRecord ∈ upsert c1_lastRecord [] ∧ c1_lastRecord = c1_lastRecord :=
  ⟨c1_upsert_idempotent_fully_replacing.1 c1_lastRecord [],
   by decide,
   c1_upsert_idempotent_fully_replacing.2.1 c1_lastRecord [] c1_lastRecord
     (by decide) (by decide)⟩

/-! ## Claim C2 -/

/-- C2: field coercion never rejects a row: one record per raw row (no row or
chunk aborted), comma is normalized to period before the decimal parse
(`"1000,50"` → 1000.50), the date is parsed against `DD/MM/YYYY` only
(`"15/03/2020"` → 2020-03-15, `"2020-03-15"` → null), and an empty or
malformed source value nulls only that field while the record is still built
from the remaining fields. -/
theorem c2_coercion_never_rejects :
    (∀ rows : List RawRow, (chunkRecords rows).length = rows.length) ∧
    (∀ (rows : List RawRow) (s : List Empresa),
       loadChunk rows s = (chunkRecords rows).foldl (fun st e => upsert e st) s) ∧
    coerceCapital ("1000,50".data) = some ((2001 : Rat) / 2) ∧
    coerceCapital [] = none ∧
    coerceCapital ("abc".data) = none ∧
    coerceDate ("15/03/2020".data) = some ⟨2020, 3, 15⟩ ∧
    coerceDate ("2020-03-15".data) = none ∧
    coerceDate [] = none ∧
    (∀ r : RawRow, rowToEmpresa r =
       ⟨r.cnpj, r.nome_empresarial, none, coerceCapital r.capital_social,
        r.uf, coerceDate r.data_abertura⟩) := by
  refine ⟨fun rows => by simp [chunkRecords], fun rows s => rfl, ?_, by decide, by decide,
    by decide, by decide, by decide, fun r => rfl⟩
  have h : replaceCommaDot ("1000,50".data) = "1000.50".data := by decide
  rw [show coerceCapital ("1000,50".data) =
    pythonFloat (replaceCommaDot ("1000,50".data)) from rfl, h]
  show parseUnsignedFloat ("1000.50".data) = _
  rw [parseUnsignedFloat]
  rw [show List.dropWhile isDigitC ("1000.50".data) = '.' :: ('5' :: ('0' :: [])) from by decide]
  rw [show List.takeWhile isDigitC ("1000.50".data) =
    '1' :: ('0' :: ('0' :: ('0' :: []))) from by decide]
  refine (if_pos ⟨by decide, by decide⟩).trans ?_
  norm_num [digitsToNat, digitVal,
    show '1'.toNat - 48 = 1 from by decide,
    show '0'.toNat - 48 = 0 from by decide,
    show '5'.toNat - 48 = 5 from by decide]

/-! ## Claim C6 -/

/-- C6: the decoder reads fixed 100000-row chunks with one commit per chunk: a
250000-row file yields exactly 3 commits of 100000, 100000 and 50000 records,
and the final store row count equals the number of distinct identifiers. -/
theorem c6_chunked_commit (rows : List RawRow) (h : rows.length = 250000) :
    (process_empresas_file rows []).2 = 3 ∧
    (chunkList chunk_size rows).map List.length = [100000, 100000, 50000] ∧
    (process_empresas_file rows []).1.length = ((rows.map rowKey).toFinset).card := by
  have hk : (0 : Nat) < chunk_size := by decide
  have h0 : rows ≠ [] := by intro he; rw [he] at h; simp at h
  have e1 := chunkList_cons chunk_size hk rows h0
  have hl1len : (rows.drop chunk_size).length = 150000 := by
    simp [List.length_drop, h, chunk_size]
  have h1 : rows.drop chunk_size ≠ [] := by
    intro he; rw [he] at hl1len; simp at hl1len
  have e2 := chunkList_cons chunk_size hk (rows.drop chunk_size) h1
  have hl2len : ((rows.drop chunk_size).drop chunk_size).length = 50000 := by
    simp [List.length_drop, h, chunk_size]
  have h2 : (rows.drop chunk_size).drop chunk_size ≠ [] := by
    intro he; rw [he] at hl2len; simp at hl2len
  have e3 := chunkList_cons chunk_size hk ((rows.drop chunk_size).drop chunk_size) h2
  have hl3 : ((rows.drop chunk_size).drop chunk_size).drop chunk_size = [] := by
    refine List.length_eq_zero.1 ?_
    simp [List.length_drop, h, chunk_size]
  have echunks : chunkList chunk_size rows =
      [rows.take chunk_size, (rows.drop chunk_size).take chunk_size,
       ((rows.drop chunk_size).drop chunk_size).take chunk_size] := by
    rw [e1, e2, e3, hl3]
    rfl
  refine ⟨?_, ?_, ?_⟩
  · show (chunkList chunk_size rows).length = 3
    rw [echunks]
    rfl
  · rw [echunks]
    simp only [List.map_cons, List.map_nil, List.length_take, h, hl1len, hl2len]
    norm_num [chunk_size]
  · show ((chunkList chunk_size rows).foldl (fun s c => loadChunk c s) []).length = _
    have hfun : (fun (s : List Empresa) (c : List RawRow) => loadChunk c s) =
        (fun s c => loadRows c s) := by
      funext s c
      exact loadChunk_eq_loadRows c s
    rw [hfun, chunks_loadRows chunk_size hk rows [], loadRows_length_distinct]

def c6_row : RawRow := ⟨"33333333".data, "E".data, [], [], [], "SP".data, []⟩

/-- Witness for C6 at a concrete 250000-row input. -/
theorem c6_witness :
    (List.replicate 250000 c6_row).length = 250000 ∧
    ((process_empresas_file (List.replicate 250000 c6_row) []).2 = 3 ∧
     (chunkList chunk_size (List.replicate 250000 c6_row)).map List.length =
       [100000, 100000, 50000] ∧
     (process_empresas_file (List.replicate 250000 c6_row) []).1.length =
       (((List.replicate 250000 c6_row).map rowKey).toFinset).card) :=
  ⟨List.length_replicate 250000 c6_row,
   c6_chunked_commit _ (List.length_replicate 250000 c6_row)⟩

/-! ## Claim C3 -/

/-- Whether a response body is a valid ZIP archive. -/
def isZipContent : FileContent → Bool
  | .zipFile _ => true
  | _ => false

theorem lookup_append_of_none {α β : Type} [BEq α] (k : α) (l1 l2 : List (α × β))
    (h : List.lookup k l1 = none) : List.lookup k (l1 ++ l2) = List.lookup k l2 := by
  induction l1 with
  | nil => rfl
  | cons p t ih =>
      rcases p with ⟨a, b⟩
      by_cases hab : (k == a) = true <;> simp_all [List.lookup]

/-- C3 (amended): if `stagingDir/filename` exists, zero network calls and the
path is returned with second component `true`; otherwise the body is fetched
and persisted under `stagingDir/filename`, and the second component reports the
extraction outcome (`true` iff the payload is a valid archive), not
`alreadyPresent = false`. -/
theorem c3_ensure_local (w : OrchWorld) (url filename : Chars) :
    (∀ c, List.lookup filename w.fs = some c →
       download_and_extract_file w url filename = ⟨.ok (filename, true), w, 0⟩) ∧
    (List.lookup filename w.fs = none →
       ∀ n s, session_get (w.net url).statusAt = (n, .gotStatus s) → s < 400 →
         (download_and_extract_file w url filename).netCalls = n ∧
         List.lookup filename (download_and_extract_file w url filename).world.fs =
           some (w.net url).body ∧
         (download_and_extract_file w url filename).result =
           .ok (filename, isZipContent (w.net url).body)) := by
  constructor
  · intro c hc
    simp [download_and_extract_file, hc]
  · intro hnone n s hsess hlt
    have hns : ¬ 400 ≤ s := by omega
    rcases hb : (w.net url).body with members | rows | html | _ <;>
      simp [download_and_extract_file, hnone, hsess, hns, hb, isZipContent,
        lookup_append_of_none _ _ _ hnone, List.lookup]

def c3_member_rows : List RawRow := []

/-- A world in which `F.zip` is not staged and the network serves a valid ZIP. -/
def c3_world : OrchWorld :=
  ⟨[], fun _ => ⟨fun _ => 200, .zipFile [("E".data, c3_member_rows)]⟩⟩

/-- Counterexample to C3 as stated: on the fresh-download path with an archive
payload the second returned component is `true`, not `alreadyPresent = false`. -/
theorem c3_counterexample :
    List.lookup ("F.zip".data) c3_world.fs = none ∧
    (download_and_extract_file c3_world ("u".data) ("F.zip".data)).result =
      .ok ("F.zip".data, true) := by
  constructor
  · rfl
  · rfl

/-- Witness for C3 at a concrete staged file and a concrete fresh download. -/
theorem c3_witness :
    (List.lookup ("A.zip".data) (⟨[(("A.zip".data), FileContent.badFile)],
        fun _ => ⟨fun _ => 200, FileContent.badFile⟩⟩ : OrchWorld).fs =
      some FileContent.badFile) ∧
    download_and_extract_file (⟨[(("A.zip".data), FileContent.badFile)],
        fun _ => ⟨fun _ => 200, FileContent.badFile⟩⟩ : OrchWorld) ("u".data) ("A.zip".data) =
      ⟨.ok ("A.zip".data, true), ⟨[(("A.zip".data), FileContent.badFile)],
        fun _ => ⟨fun _ => 200, FileContent.badFile⟩⟩, 0⟩ ∧
    (download_and_extract_file c3_world ("u".data) ("F.zip".data)).netCalls = 1 ∧
    List.lookup ("F.zip".data)
        (download_and_extract_file c3_world ("u".data) ("F.zip".data)).world.fs =
      some (c3_world.net ("u".data)).body ∧
    (download_and_extract_file c3_world ("u".data) ("F.zip".data)).result =
      .ok ("F.zip".data, isZipContent (c3_world.net ("u".data)).body) := by
  refine ⟨rfl, ?_, ?_⟩
  · exact (c3_ensure_local _ ("u".data) ("A.zip".data)).1 FileContent.badFile rfl
  · exact (c3_ensure_local c3_world ("u".data) ("F.zip".data)).2 rfl 1 200 (by decide)
      (by decide)

/-! ## Claim C4 -/

/-- C4 (amended): a GET answered 503 (or any transient status) on every attempt
fails with a retries-exhausted error after exactly 6 requests — the initial
attempt plus the configured 5 retries; backoff is exponential with fixed base
factor; only GET is ever retried; a 404 is never retried and fails immediately
on the first request. -/
theorem c4_retry_policy :
    (∀ statusAt : Nat → Nat, (∀ i, statusAt i ∈ status_forcelist) →
       session_get statusAt = (6, .retriesExhausted)) ∧
    (∀ statusAt : Nat → Nat, statusAt 0 = 404 →
       session_get statusAt = (1, .gotStatus 404)) ∧
    (∀ (method : Chars) (statusAt : Nat → Nat), method ∉ allowed_methods →
       retryGo method statusAt 0 retry_total = (1, .gotStatus (statusAt 0))) ∧
    (∀ n, 2 ≤ n → n ≤ 6 →
       get_backoff_time n = backoff_factor * 2 ^ (n - 1) ∧
       get_backoff_time (n + 1) = 2 * get_backoff_time n) := by
  refine ⟨?_, ?_, ?_, ?_⟩
  · intro statusAt h
    have hr : ∀ i, is_retry ("GET".data) (statusAt i) = true := by
      intro i
      simp [is_retry, allowed_methods, h i]
    simp [session_get, retry_total, retryGo, hr]
  · intro statusAt h
    have hr : is_retry ("GET".data) 404 = false := by decide
    simp [session_get, retry_total, retryGo, h, hr]
  · intro method statusAt h
    have hr : is_retry method (statusAt 0) = false := by
      simp [is_retry, h]
    simp [retry_total, retryGo, hr]
  · intro n h2 h6
    interval_cases n <;> exact ⟨by decide, by decide⟩

/-- Counterexample to C4 as stated: with 503 on every attempt the fetch makes 6
requests, not 5. -/
theorem c4_counterexample :
    (session_get (fun _ => 503)).1 = 6 ∧ (session_get (fun _ => 503)).1 ≠ 5 := by
  exact ⟨by decide, by decide⟩

/-- Witness for C4 at concrete status schedules. -/
theorem c4_witness :
    session_get (fun _ => 503) = (6, .retriesExhausted) ∧
    session_get (fun _ => 404) = (1, .gotStatus 404) ∧
    retryGo ("POST".data) (fun _ => 503) 0 retry_total = (1, .gotStatus 503) ∧
    get_backoff_time 3 = backoff_factor * 2 ^ 2 :=
  ⟨c4_retry_policy.1 (fun _ => 503) (fun _ => show (503 : Nat) ∈ status_forcelist by decide),
   c4_retry_policy.2.1 (fun _ => 404) rfl,
   c4_retry_policy.2.2.1 ("POST".data) (fun _ => 503) (by decide),
   (c4_retry_policy.2.2.2 3 (by decide) (by decide)).1⟩

/-! ## Claim C7 -/

/-- C7 (amended): every extracted href target is kept unless it ends in `/`;
the remaining names are matched case-insensitively against the two tokens and
a name lands in every list whose token it contains — so a name containing both
tokens appears in both lists (not in at most one); names matching neither are
dropped and trailing-`/` targets appear in neither list. -/
theorem c7_catalog_classification (html : Chars) (f : Chars) :
    (f ∈ (classifyFiles html).1 ↔
       f ∈ scanHrefs html ∧ endsWithC ['/'] f = false ∧
         hasSubC cnaeToken (toUpperC f) = true) ∧
    (f ∈ (classifyFiles html).2 ↔
       f ∈ scanHrefs html ∧ endsWithC ['/'] f = false ∧
         hasSubC empresaToken (toUpperC f) = true) ∧
    (endsWithC ['/'] f = true →
       f ∉ (classifyFiles html).1 ∧ f ∉ (classifyFiles html).2) ∧
    (hasSubC cnaeToken (toUpperC f) = false →
     hasSubC empresaToken (toUpperC f) = false →
       f ∉ (classifyFiles html).1 ∧ f ∉ (classifyFiles html).2) := by
  have h1 : f ∈ (classifyFiles html).1 ↔
      f ∈ scanHrefs html ∧ endsWithC ['/'] f = false ∧
        hasSubC cnaeToken (toUpperC f) = true := by
    simp [classifyFiles, List.mem_filter, and_assoc, and_comm]
  have h2 : f ∈ (classifyFiles html).2 ↔
      f ∈ scanHrefs html ∧ endsWithC ['/'] f = false ∧
        hasSubC empresaToken (toUpperC f) = true := by
    simp [classifyFiles, List.mem_filter, and_assoc, and_comm]
  refine ⟨h1, h2, ?_, ?_⟩
  · intro hs
    constructor
    · intro hmem
      rcases (h1.1 hmem) with ⟨_, he, _⟩
      rw [hs] at he
      simp at he
    · intro hmem
      rcases (h2.1 hmem) with ⟨_, he, _⟩
      rw [hs] at he
      simp at he
  · intro hc he
    constructor
    · intro hmem
      rcases (h1.1 hmem) with ⟨_, _, ht⟩
      rw [hc] at ht
      simp at ht
    · intro hmem
      rcases (h2.1 hmem) with ⟨_, _, ht⟩
      rw [he] at ht
      simp at ht

/-- A listing page with one filename containing both dataset tokens. -/
def c7_html : Chars := "<a href=\"X_CNAECSVEMPRECSV.zip\">".data

/-- Counterexample to C7 as stated: the filename containing both tokens is
returned in both lists, so a remaining filename can land in two lists. -/
theorem c7_counterexample :
    classifyFiles c7_html =
      (["X_CNAECSVEMPRECSV.zip".data], ["X_CNAECSVEMPRECSV.zip".data]) := by
  decide

/-- Witness for C7 at a concrete page and filename. -/
theorem c7_witness :
    ("sub/".data ∈ scanHrefs ("<a href=\"A_CNAECSV.zip\"> <a href=\"sub/\">".data)) ∧
    endsWithC ['/'] ("sub/".data) = true ∧
    ("sub/".data ∉ (classifyFiles ("<a href=\"A_CNAECSV.zip\"> <a href=\"sub/\">".data)).1 ∧
     "sub/".data ∉ (classifyFiles ("<a href=\"A_CNAECSV.zip\"> <a href=\"sub/\">".data)).2) ∧
    ("A_CNAECSV.zip".data ∈
      (classifyFiles ("<a href=\"A_CNAECSV.zip\"> <a href=\"sub/\">".data)).1) :=
  ⟨by decide, by decide,
   (c7_catalog_classification _ _).2.2.1 (by decide),
   ((c7_catalog_classification _ _).1).2 ⟨by decide, by decide, by decide⟩⟩

/-! ## Claim C10 -/

/-- C10: discovery is single-attempt: `get_file_list` always issues exactly one
request; any response status ≥ 400 — including 503, which the download path's
adapter retries — immediately yields the run-fatal discovery error. -/
theorem c10_discovery_single_attempt (w : OrchWorld) (bu : Chars) :
    (get_file_list w bu).2 = 1 ∧
    (400 ≤ (w.net bu).statusAt 0 →
       (get_file_list w bu).1 = .error (.requestFailed ((w.net bu).statusAt 0))) ∧
    is_retry ("GET".data) 503 = true := by
  refine ⟨?_, ?_, by decide⟩
  · by_cases h : 400 ≤ (w.net bu).statusAt 0 <;> simp [get_file_list, h]
  · intro h
    simp [get_file_list, h]

/-- A world whose discovery request is answered 503. -/
def c10_world : OrchWorld := ⟨[], fun _ => ⟨fun _ => 503, .badFile⟩⟩

/-- Witness for C10 at a concrete world. -/
theorem c10_witness :
    (get_file_list c10_world ("B/".data)).2 = 1 ∧
    (get_file_list c10_world ("B/".data)).1 = .error (.requestFailed 503) :=
  ⟨(c10_discovery_single_attempt c10_world ("B/".data)).1,
   (c10_discovery_single_attempt c10_world ("B/".data)).2.1 (by decide)⟩

/-! ## Claim C5 -/

def c5_base : Chars := "B/".data
def c5_f1 : Chars := "X_EMPRECSV.zip".data
def c5_f2 : Chars := "Y_EMPRECSV.zip".data

/-- A world where the first Empresas file 404s and the second downloads,
extracts and processes fine. -/
def c5_world : OrchWorld :=
  ⟨[], fun u =>
    if u = c5_base ++ c5_f1 then ⟨fun _ => 404, .badFile⟩
    else ⟨fun _ => 200, .zipFile [("Y_EMPRECSV".data, [])]⟩⟩

/-- C5: per-file errors are caught and the orchestrator proceeds to the next
file (every discovered file receives an outcome; concretely a failed first
file does not stop the second being processed), while a discovery failure
aborts the whole run before any dataset file is handled. -/
theorem c5_failure_policy :
    (∀ (w : OrchWorld) (bu : Chars) (s0 : List Empresa),
       400 ≤ (w.net bu).statusAt 0 →
         update_database w bu s0 = (.abortedDiscovery, w, s0)) ∧
    (∀ (bu : Chars) (w : OrchWorld) (s0 : List Empresa) (files : List Chars),
       ((handleEmpresaFiles bu w s0 files).2.2).map Prod.fst = files) ∧
    (handleEmpresaFiles c5_base c5_world [] [c5_f1, c5_f2]).2.2 =
      [(c5_f1, .downloadFailed), (c5_f2, .processed)] := by
  refine ⟨?_, ?_, ?_⟩
  · intro w bu s0 h
    simp [update_database, get_file_list, h]
  · intro bu w s0 files
    induction files generalizing w s0 with
    | nil => rfl
    | cons f rest ih => simp [handleEmpresaFiles, ih]
  · decide

def c5_badWorld : OrchWorld := ⟨[], fun _ => ⟨fun _ => 503, .badFile⟩⟩

/-- Witness for C5 at a concrete failing discovery and a concrete file list. -/
theorem c5_witness :
    update_database c5_badWorld c5_base [] = (.abortedDiscovery, c5_badWorld, []) ∧
    ((handleEmpresaFiles c5_base c5_world [] [c5_f1, c5_f2]).2.2).map Prod.fst =
      [c5_f1, c5_f2] :=
  ⟨c5_failure_policy.1 c5_badWorld c5_base [] (by decide),
   c5_failure_policy.2.1 c5_base c5_world [] [c5_f1, c5_f2]⟩

/-! ## Claim C8 -/

/-- C8: the text file to decode is named by stripping `.zip` when the
downloaded name (lowercased) ends with it; otherwise by opening the downloaded
file as an archive and taking its first member name; decode+upsert happens only
when a file of the derived name exists in staging, else the file is logged
missing and skipped. -/
theorem c8_csv_derivation (w : OrchWorld) (file_name local_path : Chars) :
    (endsWithC (".zip".data) (toLowerC file_name) = true →
       derive_csv_filename w file_name local_path =
         file_name.take (file_name.length - 4)) ∧
    (endsWithC (".zip".data) (toLowerC file_name) = false →
       ∀ m ms, List.lookup local_path w.fs = some (.zipFile (m :: ms)) →
         derive_csv_filename w file_name local_path = m.1) ∧
    (∀ (base : Chars) (store : List Empresa) (p : Chars × Bool),
       (dlStep w base file_name).result = .ok p →
       (List.lookup (derive_csv_filename (dlStep w base file_name).world file_name p.1)
           (dlStep w base file_name).world.fs = none →
          handleEmpresaFile base w store file_name =
            ((dlStep w base file_name).world, store,
             .csvMissing (derive_csv_filename (dlStep w base file_name).world file_name p.1),
             (dlStep w base file_name).netCalls)) ∧
       (∀ rows : List RawRow,
          List.lookup (derive_csv_filename (dlStep w base file_name).world file_name p.1)
            (dlStep w base file_name).world.fs = some (.textFile rows) →
          handleEmpresaFile base w store file_name =
            ((dlStep w base file_name).world, (process_empresas_file rows store).1,
             .processed, (dlStep w base file_name).netCalls))) := by
  refine ⟨?_, ?_, ?_⟩
  · intro h
    simp [derive_csv_filename, h]
  · intro h m ms hl
    simp [derive_csv_filename, h, hl]
  · intro base store p
    rcases hdl : dlStep w base file_name with ⟨res, wd, n⟩
    intro hres
    simp only at hres
    subst hres
    constructor
    · intro hnone
      simp only at hnone
      simp [handleEmpresaFile, hdl, hnone]
    · intro rows hsome
      simp only at hsome
      simp [handleEmpresaFile, hdl, hsome, decodeFile]

/-- A world with a staged Empresas archive and its extracted text file. -/
def c8_world : OrchWorld :=
  ⟨[(("B_EMPRECSV.zip".data), FileContent.zipFile [("B_EMPRECSV".data, [])]),
    (("B_EMPRECSV".data), FileContent.textFile [])],
   fun _ => ⟨fun _ => 200, .badFile⟩⟩

/-- Witness for C8: suffix stripping, first-member fallback and the present-file
gating, all at concrete inputs. -/
theorem c8_witness :
    derive_csv_filename c8_world ("B_EMPRECSV.zip".data) ("B_EMPRECSV.zip".data) =
      ("B_EMPRECSV.zip".data).take (("B_EMPRECSV.zip".data).length - 4) ∧
    derive_csv_filename c8_world ("NOZIP".data) ("B_EMPRECSV.zip".data) =
      "B_EMPRECSV".data ∧
    handleEmpresaFile ("B/".data) c8_world [] ("B_EMPRECSV.zip".data) =
      ((dlStep c8_world ("B/".data) ("B_EMPRECSV.zip".data)).world,
       (process_empresas_file [] []).1, .processed,
       (dlStep c8_world ("B/".data) ("B_EMPRECSV.zip".data)).netCalls) :=
  ⟨(c8_csv_derivation c8_world ("B_EMPRECSV.zip".data) ("B_EMPRECSV.zip".data)).1
     (by decide),
   (c8_csv_derivation c8_world ("NOZIP".data) ("B_EMPRECSV.zip".data)).2.1
     (by decide) ("B_EMPRECSV".data, []) [] (by decide),
   ((c8_csv_derivation c8_world ("B_EMPRECSV.zip".data) ("B_EMPRECSV.zip".data)).2.2
      ("B/".data) [] (("B_EMPRECSV.zip".data), true) rfl).2 [] (by decide)⟩

/-! ## Claim C9 -/

/-- C9: extraction happens only on the fresh-download path: when the staged
archive already exists the call returns immediately with second component
`true`, makes no network call and leaves the filesystem unchanged; hence if
the extracted text file is absent it stays absent and the file's records are
skipped (`csvMissing`), identically on every rerun since the state is
unchanged. -/
theorem c9_no_extraction_on_rerun (base : Chars) (w : OrchWorld)
    (store : List Empresa) (f : Chars) (members : List (Chars × List RawRow))
    (hf : List.lookup f w.fs = some (.zipFile members))
    (hcsv : List.lookup (derive_csv_filename w f f) w.fs = none) :
    (dlStep w base f).result = .ok (f, true) ∧
    (dlStep w base f).netCalls = 0 ∧
    (dlStep w base f).world.fs = w.fs ∧
    handleEmpresaFile base w store f =
      (w, store, .csvMissing (derive_csv_filename w f f), 0) := by
  have hdl : dlStep w base f = ⟨.ok (f, true), w, 0⟩ := by
    simp [dlStep, download_and_extract_file, hf]
  refine ⟨by rw [hdl], by rw [hdl], by rw [hdl], ?_⟩
  simp [handleEmpresaFile, hdl, hcsv]

/-- A world where a prior run staged the archive but crashed before
extraction: the derived CSV name is absent. -/
def c9_world : OrchWorld :=
  ⟨[(("E_EMPRECSV.zip".data), FileContent.zipFile [("E_EMPRECSV".data, [])])],
   fun _ => ⟨fun _ => 200, .badFile⟩⟩

/-- Witness for C9 at that concrete world. -/
theorem c9_witness :
    (dlStep c9_world ("B/".data) ("E_EMPRECSV.zip".data)).result =
      .ok ("E_EMPRECSV.zip".data, true) ∧
    (dlStep c9_world ("B/".data) ("E_EMPRECSV.zip".data)).netCalls = 0 ∧
    (dlStep c9_world ("B/".data) ("E_EMPRECSV.zip".data)).world.fs = c9_world.fs ∧
    handleEmpresaFile ("B/".data) c9_world [] ("E_EMPRECSV.zip".data) =
      (c9_world, [],
       .csvMissing (derive_csv_filename c9_world ("E_EMPRECSV.zip".data)
         ("E_EMPRECSV.zip".data)), 0) :=
  c9_no_extraction_on_rerun ("B/".data) c9_world [] ("E_EMPRECSV.zip".data)
    [("E_EMPRECSV".data, [])] (by decide) (by decide)

end Prospecta
